import Mathlib

/-!
# Verification of the `alx-backend-storage` caching layer

Shallow embedding of `src/0x02-redis_basic/exercise.py` (the `Cache` class,
the `count_calls` / `call_history` decorators and `replay`) and
`src/0x02-redis_basic/web.py` (the expiring web cache `get_page` with its
`count_requests` decorator), together with proofs of the specification
claims.

Modelling conventions:
* Python `bytes` is `List Nat` (each element a byte value `< 256`).
* Python `str` is `List Nat` (the sequence of Unicode code points); a
  displayable Lean `String` is produced only for replay's printed lines.
* Redis stores byte strings and lists of byte strings; the store is an
  association list with prepend-on-write semantics (the most recent write
  for a key is found first), which matches overwrite semantics
  observationally.
* Python exceptions are `Except String`; redis mutations performed before
  an exception persist, so effectful operations return
  `Except String α × State` rather than `Except String (α × State)`.
-/

/-- Byte strings: Python `bytes` values, one `Nat` per byte. -/
abbrev Bytes := List Nat

/-- Code-point strings: Python `str` values, one `Nat` per Unicode scalar. -/
abbrev Codes := List Nat

/-! ## Decimal integer codec

Redis stores integers (and `incr` results) as ASCII decimal byte strings;
Python's `int()` builtin parses them back.  `encodeIntBytes` models the
decimal rendering (`str(n)` / redis's own integer encoding);
`parseIntBytes` models `int(b)` in full: surrounding ASCII whitespace is
stripped, then an optional sign and decimal digits with single
underscores allowed between digits (PEP 515); anything else raises
`ValueError`, modelled as `none`. -/

/-- ASCII decimal digits of a natural number, most significant first
(`str(n)` for `n ≥ 0`; `str(0) = "0"`). -/
def natDecimalBytes (n : Nat) : Bytes :=
  if n = 0 then [48] else ((Nat.digits 10 n).map (· + 48)).reverse

/-- `str(n)` for an integer, as ASCII bytes (minus sign 45 when negative). -/
def encodeIntBytes (n : Int) : Bytes :=
  if n < 0 then 45 :: natDecimalBytes n.natAbs else natDecimalBytes n.toNat

/-- Is `b` the code of an ASCII decimal digit? -/
def isDigitByte (b : Nat) : Bool := 48 ≤ b && b ≤ 57

/-- Value of a most-significant-first digit list. -/
def digitsVal (l : List Nat) : Nat := l.foldl (fun a d => 10 * a + d) 0

/-- Parse a nonempty all-digit byte string as a natural number. -/
def parseNatBytes (l : Bytes) : Option Nat :=
  if l ≠ [] ∧ l.all isDigitByte then some (digitsVal (l.map (· - 48))) else none

/-- The ASCII whitespace bytes Python's `int()` strips from a byte
string (space, tab, LF, VT, FF, CR). -/
def isSpaceByte (b : Nat) : Bool :=
  b = 32 || b = 9 || b = 10 || b = 11 || b = 12 || b = 13

/-- Strip leading and trailing ASCII whitespace, as `int()` does. -/
def stripBytes (l : Bytes) : Bytes :=
  ((l.dropWhile isSpaceByte).reverse.dropWhile isSpaceByte).reverse

/-- PEP 515 digit grouping after a leading digit: an underscore (95) may
occur only singly and only between digits; returns the remaining digits
with the underscores removed. -/
def unGroup : Bytes → Option Bytes
  | [] => some []
  | b :: rest =>
    if b = 95 then
      match rest with
      | d :: rest' =>
        if isDigitByte d then (unGroup rest').map (d :: ·) else none
      | [] => none
    else if isDigitByte b then (unGroup rest).map (b :: ·)
    else none

/-- A digit run in Python `int()` syntax: a leading digit, then digits
with optional single underscore separators. -/
def parseGroupedDigits (l : Bytes) : Option Nat :=
  match l with
  | [] => none
  | d :: rest =>
    if isDigitByte d then (unGroup rest).bind (fun ds => parseNatBytes (d :: ds))
    else none

/-- Model of Python's `int(b)` on a byte string: strip surrounding ASCII
whitespace, optional sign, then underscore-grouped decimal digits;
`none` models the `ValueError` raised otherwise. -/
def parseIntBytes (l : Bytes) : Option Int :=
  match stripBytes l with
  | [] => none
  | b :: rest =>
    if b = 45 then (parseGroupedDigits rest).map (fun m => -(Int.ofNat m))
    else if b = 43 then (parseGroupedDigits rest).map Int.ofNat
    else (parseGroupedDigits (b :: rest)).map Int.ofNat

theorem digitsVal_append (xs : List Nat) (d : Nat) :
    digitsVal (xs ++ [d]) = 10 * digitsVal xs + d := by
  simp [digitsVal, List.foldl_append]

theorem digitsVal_reverse_eq_ofDigits (l : List Nat) :
    digitsVal l.reverse = Nat.ofDigits 10 l := by
  induction l with
  | nil => simp [digitsVal]
  | cons d t ih =>
      have : (d :: t).reverse = t.reverse ++ [d] := by simp
      rw [this, digitsVal_append, ih, Nat.ofDigits_cons]
      ring

theorem natDecimalBytes_ne_nil (n : Nat) : natDecimalBytes n ≠ [] := by
  unfold natDecimalBytes
  by_cases h : n = 0
  · simp [h]
  · simp [h, Nat.digits_eq_nil_iff_eq_zero]

theorem natDecimalBytes_all_digits (n : Nat) :
    (natDecimalBytes n).all isDigitByte = true := by
  unfold natDecimalBytes
  by_cases h : n = 0
  · simp [h, isDigitByte]
  · simp only [h, if_false, List.all_reverse, List.all_map, List.all_eq_true]
    intro d hd
    have hlt : d < 10 := Nat.digits_lt_base (by norm_num) hd
    simp [isDigitByte, Function.comp]
    omega

theorem parseNat_natDecimalBytes (n : Nat) :
    parseNatBytes (natDecimalBytes n) = some n := by
  unfold parseNatBytes
  rw [if_pos ⟨natDecimalBytes_ne_nil n, natDecimalBytes_all_digits n⟩]
  congr 1
  unfold natDecimalBytes
  by_cases h : n = 0
  · simp [h, digitsVal]
  · simp only [h, if_false]
    have h1 : (((Nat.digits 10 n).map (· + 48)).reverse).map (· - 48)
        = (Nat.digits 10 n).reverse := by
      rw [← List.map_reverse, List.map_map]
      have : ((· - 48) ∘ (· + 48) : Nat → Nat) = id := by
        funext x; simp
      rw [this, List.map_id]
    rw [h1, digitsVal_reverse_eq_ofDigits, Nat.ofDigits_digits]

theorem natDecimalBytes_no_space (n : Nat) :
    ∀ c ∈ natDecimalBytes n, isSpaceByte c = false := by
  intro c hc
  have hall := natDecimalBytes_all_digits n
  rw [List.all_eq_true] at hall
  have hd : 48 ≤ c ∧ c ≤ 57 := by simpa [isDigitByte] using hall c hc
  simp [isSpaceByte]
  omega

theorem dropWhile_space_eq_self {l : Bytes}
    (h : ∀ c ∈ l, isSpaceByte c = false) :
    l.dropWhile isSpaceByte = l := by
  cases l with
  | nil => rfl
  | cons a t => simp [List.dropWhile_cons, h a (List.mem_cons_self a t)]

theorem stripBytes_eq_self {l : Bytes} (h : ∀ c ∈ l, isSpaceByte c = false) :
    stripBytes l = l := by
  unfold stripBytes
  rw [dropWhile_space_eq_self h,
    dropWhile_space_eq_self (fun c hc => h c (List.mem_reverse.mp hc)),
    List.reverse_reverse]

theorem unGroup_all_digits : ∀ l : Bytes, l.all isDigitByte = true →
    unGroup l = some l := by
  intro l
  induction l with
  | nil => intro _; rfl
  | cons b t ih =>
      intro h
      rw [List.all_cons, Bool.and_eq_true] at h
      have hb : 48 ≤ b ∧ b ≤ 57 := by simpa [isDigitByte] using h.1
      unfold unGroup
      rw [if_neg (by omega), if_pos h.1, ih h.2]
      rfl

theorem parseGroupedDigits_natDecimal (n : Nat) :
    parseGroupedDigits (natDecimalBytes n) = some n := by
  obtain ⟨d, ds, hdl⟩ : ∃ d ds, natDecimalBytes n = d :: ds := by
    cases hc : natDecimalBytes n with
    | nil => exact absurd hc (natDecimalBytes_ne_nil _)
    | cons d ds => exact ⟨d, ds, rfl⟩
  have hall := natDecimalBytes_all_digits n
  rw [hdl, List.all_cons, Bool.and_eq_true] at hall
  rw [hdl]
  simp only [parseGroupedDigits]
  rw [if_pos hall.1, unGroup_all_digits ds hall.2]
  show parseNatBytes (d :: ds) = some n
  rw [← hdl]
  exact parseNat_natDecimalBytes n

/-- The decimal rendering of an integer parses back to that integer
(`int(str(n)) == n`). -/
theorem parseInt_encodeInt (n : Int) : parseIntBytes (encodeIntBytes n) = some n := by
  by_cases h : n < 0
  · have he : encodeIntBytes n = 45 :: natDecimalBytes n.natAbs := by
      simp [encodeIntBytes, h]
    have hns : ∀ c ∈ 45 :: natDecimalBytes n.natAbs, isSpaceByte c = false := by
      intro c hc
      rcases List.mem_cons.mp hc with hc45 | hcm
      · subst hc45
        rfl
      · exact natDecimalBytes_no_space _ c hcm
    rw [he]
    have hstrip := stripBytes_eq_self hns
    simp [parseIntBytes, hstrip, parseGroupedDigits_natDecimal]
    have habs : |n| = -n := abs_of_nonpos (le_of_lt h)
    omega
  · have he : encodeIntBytes n = natDecimalBytes n.toNat := by
      simp [encodeIntBytes, h]
    obtain ⟨d, ds, hdl⟩ : ∃ d ds, natDecimalBytes n.toNat = d :: ds := by
      cases hc : natDecimalBytes n.toNat with
      | nil => exact absurd hc (natDecimalBytes_ne_nil _)
      | cons d ds => exact ⟨d, ds, rfl⟩
    have hall := natDecimalBytes_all_digits n.toNat
    rw [hdl, List.all_cons, Bool.and_eq_true] at hall
    have hd48 : 48 ≤ d ∧ d ≤ 57 := by simpa [isDigitByte] using hall.1
    have hstrip := stripBytes_eq_self (natDecimalBytes_no_space n.toNat)
    rw [hdl] at hstrip
    rw [he, hdl]
    simp only [parseIntBytes, hstrip]
    rw [if_neg (by omega), if_neg (by omega), ← hdl,
      parseGroupedDigits_natDecimal]
    simp only [Option.map_some', Int.ofNat_eq_coe]
    congr 1
    omega

/-! ## UTF-8 codec

`str.encode()` / `bytes.decode('utf-8')` as used by redis when storing
Python strings and by `get_str` / `replay` when reading them back.
The encoder and decoder follow RFC 3629: 1–4 byte sequences, continuation
bytes in `0x80–0xBF`, overlong encodings, surrogates and code points above
`0x10FFFF` rejected by the decoder. -/

/-- UTF-8 bytes of a single code point (total; meaningful for
`validCode` points). -/
def utf8EncodeChar (n : Nat) : Bytes :=
  if n < 0x80 then [n]
  else if n < 0x800 then [0xC0 + n / 64, 0x80 + n % 64]
  else if n < 0x10000 then
    [0xE0 + n / 4096, 0x80 + n / 64 % 64, 0x80 + n % 64]
  else
    [0xF0 + n / 262144, 0x80 + n / 4096 % 64, 0x80 + n / 64 % 64, 0x80 + n % 64]

/-- `s.encode('utf-8')`. -/
def utf8Encode : Codes → Bytes
  | [] => []
  | c :: s => utf8EncodeChar c ++ utf8Encode s

/-- A Unicode scalar value: below `0x110000` and not a surrogate. -/
def validCode (n : Nat) : Bool :=
  decide (n < 0xD800) || (decide (0xE000 ≤ n) && decide (n < 0x110000))

/-- All code points of a Python string are Unicode scalars (Python can
hold lone surrogates, but those fail `encode('utf-8')`). -/
def validStr (s : Codes) : Bool := s.all validCode

/-- Decode one UTF-8 sequence from the front of a byte string: the code
point and the remaining bytes, or `none` on malformed input. -/
def utf8DecodeOne : Bytes → Option (Nat × Bytes)
  | [] => none
  | b :: rest =>
    if b < 0x80 then some (b, rest)
    else if b < 0xC2 then none
    else if b < 0xE0 then
      match rest with
      | b1 :: rest' =>
        if 0x80 ≤ b1 ∧ b1 < 0xC0 then
          some ((b - 0xC0) * 64 + (b1 - 0x80), rest')
        else none
      | [] => none
    else if b < 0xF0 then
      match rest with
      | b1 :: b2 :: rest' =>
        if 0x80 ≤ b1 ∧ b1 < 0xC0 ∧ 0x80 ≤ b2 ∧ b2 < 0xC0 then
          if (b - 0xE0) * 4096 + (b1 - 0x80) * 64 + (b2 - 0x80) < 0x800
              ∨ (0xD800 ≤ (b - 0xE0) * 4096 + (b1 - 0x80) * 64 + (b2 - 0x80)
                 ∧ (b - 0xE0) * 4096 + (b1 - 0x80) * 64 + (b2 - 0x80) < 0xE000)
          then none
          else some ((b - 0xE0) * 4096 + (b1 - 0x80) * 64 + (b2 - 0x80), rest')
        else none
      | _ => none
    else if b < 0xF5 then
      match rest with
      | b1 :: b2 :: b3 :: rest' =>
        if 0x80 ≤ b1 ∧ b1 < 0xC0 ∧ 0x80 ≤ b2 ∧ b2 < 0xC0 ∧ 0x80 ≤ b3 ∧ b3 < 0xC0 then
          if (b - 0xF0) * 262144 + (b1 - 0x80) * 4096
              + (b2 - 0x80) * 64 + (b3 - 0x80) < 0x10000
              ∨ 0x110000 ≤ (b - 0xF0) * 262144 + (b1 - 0x80) * 4096
                + (b2 - 0x80) * 64 + (b3 - 0x80)
          then none
          else some ((b - 0xF0) * 262144 + (b1 - 0x80) * 4096
                     + (b2 - 0x80) * 64 + (b3 - 0x80), rest')
        else none
      | _ => none
    else none

theorem utf8DecodeOne_length {l : Bytes} {c : Nat} {r : Bytes}
    (h : utf8DecodeOne l = some (c, r)) : r.length < l.length := by
  unfold utf8DecodeOne at h
  split at h
  · exact absurd h (by simp)
  · split at h
    · injection h with h'
      injection h' with h1 h2
      subst h2
      simp
    · split at h
      · exact absurd h (by simp)
      · split at h
        · split at h
          · split at h
            · injection h with h'
              injection h' with h1 h2
              subst h2
              simp
              omega
            · exact absurd h (by simp)
          · exact absurd h (by simp)
        · split at h
          · split at h
            · split at h
              · split at h
                · exact absurd h (by simp)
                · injection h with h'
                  injection h' with h1 h2
                  subst h2
                  simp
                  omega
              · exact absurd h (by simp)
            · exact absurd h (by simp)
          · split at h
            · split at h
              · split at h
                · split at h
                  · exact absurd h (by simp)
                  · injection h with h'
                    injection h' with h1 h2
                    subst h2
                    simp
                    omega
                · exact absurd h (by simp)
              · exact absurd h (by simp)
            · exact absurd h (by simp)

/-- `b.decode('utf-8')`: `none` models `UnicodeDecodeError`. -/
def utf8Decode (l : Bytes) : Option Codes :=
  match l with
  | [] => some []
  | b :: rest =>
    match h : utf8DecodeOne (b :: rest) with
    | none => none
    | some (c, r) => (utf8Decode r).map (c :: ·)
termination_by l.length
decreasing_by
  simp only [List.length_cons]
  have := utf8DecodeOne_length h
  simpa using this

theorem utf8Decode_of_decodeOne {l : Bytes} {c : Nat} {r : Bytes}
    (h : utf8DecodeOne l = some (c, r)) :
    utf8Decode l = (utf8Decode r).map (c :: ·) := by
  cases l with
  | nil => simp [utf8DecodeOne] at h
  | cons b rest =>
      rw [utf8Decode.eq_def]
      simp only
      split
      · rename_i heq
        rw [heq] at h
        exact absurd h (by simp)
      · rename_i c' r' heq
        rw [heq] at h
        injection h with h'
        injection h' with h1 h2
        subst h1
        subst h2
        rfl

theorem utf8DecodeOne_encodeChar (n : Nat) (hv : validCode n = true)
    (tail : Bytes) :
    utf8DecodeOne (utf8EncodeChar n ++ tail) = some (n, tail) := by
  have hv' : n < 0xD800 ∨ (0xE000 ≤ n ∧ n < 0x110000) := by
    simp [validCode] at hv
    omega
  by_cases h1 : n < 0x80
  · have he : utf8EncodeChar n = [n] := by simp [utf8EncodeChar, h1]
    rw [he, List.cons_append, List.nil_append]
    simp only [utf8DecodeOne]
    rw [if_pos h1]
  · by_cases h2 : n < 0x800
    · have he : utf8EncodeChar n = [0xC0 + n / 64, 0x80 + n % 64] := by
        rw [utf8EncodeChar, if_neg h1, if_pos h2]
      rw [he]
      simp only [List.cons_append, List.nil_append]
      simp only [utf8DecodeOne]
      rw [if_neg (by omega), if_neg (by omega), if_pos (by omega),
        if_pos (by constructor <;> omega)]
      have hn : (0xC0 + n / 64 - 0xC0) * 64 + (0x80 + n % 64 - 0x80) = n := by
        omega
      rw [hn]
    · by_cases h3 : n < 0x10000
      · have he : utf8EncodeChar n
            = [0xE0 + n / 4096, 0x80 + n / 64 % 64, 0x80 + n % 64] := by
          rw [utf8EncodeChar, if_neg h1, if_neg h2, if_pos h3]
        rw [he]
        simp only [List.cons_append, List.nil_append]
        simp only [utf8DecodeOne]
        rw [if_neg (by omega), if_neg (by omega), if_neg (by omega),
          if_pos (by omega),
          if_pos (show _ ∧ _ ∧ _ ∧ _ from by refine ⟨by omega, by omega, by omega, by omega⟩),
          if_neg (by omega)]
        have hn : (0xE0 + n / 4096 - 0xE0) * 4096 + (0x80 + n / 64 % 64 - 0x80) * 64
            + (0x80 + n % 64 - 0x80) = n := by
          omega
        rw [hn]
      · have h4 : n < 0x110000 := by omega
        have he : utf8EncodeChar n
            = [0xF0 + n / 262144, 0x80 + n / 4096 % 64, 0x80 + n / 64 % 64,
               0x80 + n % 64] := by
          rw [utf8EncodeChar, if_neg h1, if_neg h2, if_neg h3]
        rw [he]
        simp only [List.cons_append, List.nil_append]
        simp only [utf8DecodeOne]
        rw [if_neg (by omega), if_neg (by omega), if_neg (by omega),
          if_neg (by omega), if_pos (by omega),
          if_pos (show _ ∧ _ ∧ _ ∧ _ ∧ _ ∧ _ from
            by refine ⟨by omega, by omega, by omega, by omega, by omega, by omega⟩),
          if_neg (by omega)]
        have hn : (0xF0 + n / 262144 - 0xF0) * 262144
            + (0x80 + n / 4096 % 64 - 0x80) * 4096
            + (0x80 + n / 64 % 64 - 0x80) * 64 + (0x80 + n % 64 - 0x80) = n := by
          omega
        rw [hn]

/-- UTF-8 round trip: encoding a string of Unicode scalars and decoding
the bytes yields the string back (`s.encode('utf-8').decode('utf-8') == s`). -/
theorem utf8Decode_utf8Encode (s : Codes) (hv : validStr s = true) :
    utf8Decode (utf8Encode s) = some s := by
  induction s with
  | nil => simp [utf8Encode, utf8Decode]
  | cons c t ih =>
      simp only [validStr, List.all_cons, Bool.and_eq_true] at hv
      rw [utf8Encode,
        utf8Decode_of_decodeOne (utf8DecodeOne_encodeChar c hv.1 (utf8Encode t)),
        ih hv.2, Option.map_some']

/-! ## Python scalar values

`Cache.store` accepts `Union[str, bytes, int, float]`.  The redis client
encodes a `str` as its UTF-8 bytes, leaves `bytes` unchanged, renders an
`int` in decimal and a `float` via `repr(value)`.  Python's `repr` of a
float round-trips exactly, so a float value is modelled here by the code
points of its printed decimal form. -/

inductive Value
  | str (s : Codes)
  | bytes (b : Bytes)
  | int (n : Int)
  | float (r : Codes)
deriving DecidableEq

/-- The byte string the redis client writes for a Python scalar. -/
def encodeValue : Value → Bytes
  | .str s => utf8Encode s
  | .bytes b => b
  | .int n => encodeIntBytes n
  | .float r => utf8Encode r

/-- Encodable values: string-like payloads hold genuine Unicode scalars
(a Python `str` holding a lone surrogate makes `encode('utf-8')` raise,
so redis never stores it). -/
def validValue : Value → Bool
  | .str s => validStr s
  | .bytes _ => true
  | .int _ => true
  | .float r => validStr r

/-- "Decoded per the original type, the bytes equal v": UTF-8 decoding for
strings and float reprs, base-10 parse for integers, identity for bytes
(the round-trip law of the spec, stated from the spec's words). -/
def decodesBackTo (v : Value) (b : Bytes) : Bool :=
  match v with
  | .str s => utf8Decode b == some s
  | .bytes x => b == x
  | .int n => parseIntBytes b == some n
  | .float r => utf8Decode b == some r

/-! ## Redis store model

Keys are the code points of the Python key strings (every key this
program builds is ASCII, so the string's code points and its UTF-8 bytes
coincide).  Values are either byte strings or lists of byte strings.  The
store is an association list where a write prepends and a read takes the
first match, i.e. the most recent write wins — observationally the
overwrite semantics of redis.  `incr` counts with unbounded integers (the
64-bit bound of redis is unreachable by any sequence of calls considered
here).  `WRONGTYPE` and `DataError` conditions surface as `Except.error`,
as the client library raises for them. -/

inductive RVal
  | str (b : Bytes)
  | lst (l : List Bytes)
deriving DecidableEq

abbrev RStore := List (Codes × RVal)

def rlookup : RStore → Codes → Option RVal
  | [], _ => none
  | (k', v) :: t, k => if k = k' then some v else rlookup t k

/-- `SET key value` (value already encoded to bytes). -/
def rset (st : RStore) (k : Codes) (b : Bytes) : RStore := (k, .str b) :: st

/-- `FLUSHDB`. -/
def rflushdb (_ : RStore) : RStore := []

/-- `GET key`: bytes or `None`; raises on a list-typed key. -/
def rget (st : RStore) (k : Codes) : Except String (Option Bytes) :=
  match rlookup st k with
  | none => .ok none
  | some (.str b) => .ok (some b)
  | some (.lst _) => .error "WRONGTYPE"

/-- `EXISTS key`. -/
def rexists (st : RStore) (k : Codes) : Nat :=
  match rlookup st k with
  | none => 0
  | some _ => 1

/-- `INCR key`: missing key counts from 0; non-integer contents raise. -/
def rincr (st : RStore) (k : Codes) : Except String (Int × RStore) :=
  match rlookup st k with
  | none => .ok (1, rset st k (encodeIntBytes 1))
  | some (.str b) =>
    match parseIntBytes b with
    | none => .error "value is not an integer or out of range"
    | some n => .ok (n + 1, rset st k (encodeIntBytes (n + 1)))
  | some (.lst _) => .error "WRONGTYPE"

/-- `RPUSH key value`: appends to the list, creating it if missing. -/
def rpush (st : RStore) (k : Codes) (b : Bytes) : Except String RStore :=
  match rlookup st k with
  | none => .ok ((k, .lst [b]) :: st)
  | some (.lst l) => .ok ((k, .lst (l ++ [b])) :: st)
  | some (.str _) => .error "WRONGTYPE"

/-- `LRANGE key 0 -1`: the whole list; missing key is the empty list. -/
def rlrange (st : RStore) (k : Codes) : Except String (List Bytes) :=
  match rlookup st k with
  | none => .ok []
  | some (.lst l) => .ok l
  | some (.str _) => .error "WRONGTYPE"

/-! ## Key strings and display forms -/

/-- Code points of `"Cache.store"`, the qualified name of `Cache.store`. -/
def storeQual : Codes := [67, 97, 99, 104, 101, 46, 115, 116, 111, 114, 101]

/-- `'{}:inputs'.format(qualname)`. -/
def inputsKey (q : Codes) : Codes := q ++ [58, 105, 110, 112, 117, 116, 115]

/-- `'{}:outputs'.format(qualname)`. -/
def outputsKey (q : Codes) : Codes :=
  q ++ [58, 111, 117, 116, 112, 117, 116, 115]

/-- The string form of the `n`-th generated identifier.  `uuid.uuid4()`
draws a fresh random 128-bit identifier per call; the model determinises
the draw into the sequence `"uuid-0", "uuid-1", …` (`117 117 105 100 45`
is `"uuid-"`), keeping the property that matters: each generated key is
distinct from all earlier keys and from every telemetry key. -/
def uuidCodes (n : Nat) : Codes := [117, 117, 105, 100, 45] ++ encodeIntBytes (Int.ofNat n)

/-- Escape one character of a `repr`-quoted string (backslash and single
quote; Python additionally escapes unprintables, which is a display-only
refinement no property here depends on). -/
def reprEscape (c : Nat) : Codes :=
  if c = 92 then [92, 92] else if c = 39 then [92, 39] else [c]

/-- Lower-case hex digit. -/
def hexDigitCode (n : Nat) : Nat := if n < 10 then 48 + n else 87 + n

/-- Display of one byte inside `repr(bytes)`: printable ASCII kept,
everything else `\xHH` (Python's `\n`/`\t`/`\r` short forms are a
display-only refinement). -/
def byteEscape (b : Nat) : Codes :=
  if b = 92 then [92, 92]
  else if b = 39 then [92, 39]
  else if 32 ≤ b ∧ b < 127 then [b]
  else [92, 120, hexDigitCode (b / 16 % 16), hexDigitCode (b % 16)]

/-- `repr(bytes)`: `b'…'`. -/
def bytesReprCodes (b : Bytes) : Codes :=
  98 :: 39 :: (b.foldr (fun x acc => byteEscape x ++ acc) [] ++ [39])

/-- `repr(v)` for a stored scalar. -/
def pyRepr : Value → Codes
  | .str s => 39 :: (s.foldr (fun c acc => reprEscape c ++ acc) [] ++ [39])
  | .bytes b => bytesReprCodes b
  | .int n => encodeIntBytes n
  | .float r => r

/-- `str(args)` for the one-element positional-argument tuple `(v,)`. -/
def strArgs (v : Value) : Codes := 40 :: (pyRepr v ++ [44, 41])

/-- Render code points as a Lean string (display only). -/
def codesToString (l : Codes) : String := String.mk (l.map Char.ofNat)

/-! ## The Cache service

`Cache.__init__` connects and flushes; `store` is wrapped by
`call_history` (outermost) and `count_calls`, so one call performs, in
order: RPUSH of `str(args)` onto `…:inputs`, INCR of the qualified name,
the body (`SET` under a fresh identifier, returning it), RPUSH of the
result onto `…:outputs`.  A constructed `Cache` always carries a real
`redis.Redis` instance, so the `isinstance(self.redis_instance,
redis.Redis)` guards inside both decorators are true on every path
modelled here (the guard-false branch is modelled separately for
`replay`'s invalid-handle cases).  A raised exception aborts the chain
but keeps the redis writes already performed, hence the
`Except String Value × CacheState` shape. -/

structure CacheState where
  store : RStore
  supply : Nat

/-- `Cache.__init__`: `redis.Redis()` then `flushdb(True)`. -/
def Cache.init (prior : RStore) : CacheState :=
  { store := rflushdb prior, supply := 0 }

/-- `call_history(count_calls(body))` applied to one invocation whose
positional-argument display is `argRepr`. -/
def instrumentedCall (qual : Codes) (argRepr : Codes)
    (body : CacheState → Except String Value × CacheState)
    (st : CacheState) : Except String Value × CacheState :=
  match rpush st.store (inputsKey qual) (utf8Encode argRepr) with
  | .error e => (.error e, st)
  | .ok store1 =>
    match rincr store1 qual with
    | .error e => (.error e, { st with store := store1 })
    | .ok (_, store2) =>
      match body { st with store := store2 } with
      | (.error e, st3) => (.error e, st3)
      | (.ok v, st3) =>
        match rpush st3.store (outputsKey qual) (encodeValue v) with
        | .error e => (.error e, st3)
        | .ok store4 => (.ok v, { st3 with store := store4 })

/-- The body of `Cache.store`: `key = str(uuid.uuid4());
self.redis_instance.set(key, value); return key`. -/
def storeBody (v : Value) (st : CacheState) : Except String Value × CacheState :=
  (.ok (.str (uuidCodes st.supply)),
   { store := rset st.store (uuidCodes st.supply) (encodeValue v),
     supply := st.supply + 1 })

/-- `Cache.store` with both decorators applied. -/
def Cache.store (st : CacheState) (v : Value) : Except String Value × CacheState :=
  instrumentedCall storeQual (strArgs v) (storeBody v) st

/-- `Cache.get`: raw bytes (or `None`) from redis, with the optional
`transform` applied to whatever `get` returned — including `None`, since
the source computes `transform(value) if transform is not None else
value`. -/
def Cache.get (st : CacheState) (k : Codes)
    (transform : Option (Option Bytes → Except String (Option Value))) :
    Except String (Option Value) :=
  match rget st.store k with
  | .error e => .error e
  | .ok v =>
    match transform with
    | some f => f v
    | none => .ok (v.map Value.bytes)

/-- The transform `lambda x: x.decode('utf-8')`: `None` has no `.decode`
(AttributeError), invalid UTF-8 raises `UnicodeDecodeError`. -/
def decodeTransform : Option Bytes → Except String (Option Value)
  | none => .error "AttributeError"
  | some b =>
    match utf8Decode b with
    | none => .error "UnicodeDecodeError"
    | some s => .ok (some (.str s))

/-- The transform `lambda x: int(x)`: `int(None)` raises `TypeError`,
non-numeric bytes raise `ValueError`. -/
def intTransform : Option Bytes → Except String (Option Value)
  | none => .error "TypeError"
  | some b =>
    match parseIntBytes b with
    | none => .error "ValueError"
    | some n => .ok (some (.int n))

/-- `Cache.get_str`. -/
def Cache.get_str (st : CacheState) (k : Codes) : Except String (Option Value) :=
  Cache.get st k (some decodeTransform)

/-- `Cache.get_int`. -/
def Cache.get_int (st : CacheState) (k : Codes) : Except String (Option Value) :=
  Cache.get st k (some intTransform)

/-- A session of successive `store` calls (each call's success is needed
before the next runs). -/
def runStores : CacheState → List Value → Except String CacheState
  | st, [] => .ok st
  | st, v :: vs =>
    match Cache.store st v with
    | (.ok _, st') => runStores st' vs
    | (.error e, _) => .error e

/-- The CallCounter as `replay` reads it: missing key is 0, stored bytes
go through `int()`. -/
def counterValue (store : RStore) (q : Codes) : Except String Int :=
  match rget store q with
  | .error e => .error e
  | .ok none => .ok 0
  | .ok (some b) =>
    match parseIntBytes b with
    | none => .error "invalid literal for int()"
    | some n => .ok n

/-! ## The replay utility

`replay(function)` first checks `function is None or not
hasattr(function, '__self__')`, then that
`getattr(function.__self__, 'redis_instance', None)` is a `redis.Redis`;
on any failure it returns silently.  Otherwise it prints one summary line
(missing counter read as 0) and one line per `zip(inputs, outputs)` pair,
decoding each input as UTF-8 and printing each output in its stored raw
(bytes-repr) form.  The model returns the list of printed lines;
`Except.error` models an exception escaping `replay`. -/

/-- What `getattr(function.__self__, 'redis_instance', None)` can be. -/
inductive StoreHandle
  | redisH (store : RStore)
  | otherH
  | absentH

/-- The argument of `replay`: `None`, a function without `__self__`, or a
bound method carrying its qualified name and its owner's handle. -/
inductive FuncRef
  | noneRef
  | plain
  | bound (qual : Codes) (h : StoreHandle)

/-- `'{} was called {} times:'.format(function_name, call_count)`. -/
def summaryLine (qual : Codes) (count : Int) : String :=
  codesToString qual ++ " was called " ++ codesToString (encodeIntBytes count)
    ++ " times:"

/-- `'{}(*{}) -> {}'.format(function_name, input_value.decode("utf-8"),
output_value)`. -/
def pairLine (qual : Codes) (inputText : Codes) (out : Bytes) : String :=
  codesToString qual ++ "(*" ++ codesToString inputText ++ ") -> "
    ++ codesToString (bytesReprCodes out)

/-- The per-pair print loop of `replay`. -/
def pairLines (qual : Codes) : List (Bytes × Bytes) → Except String (List String)
  | [] => .ok []
  | (i, o) :: t =>
    match utf8Decode i with
    | none => .error "UnicodeDecodeError"
    | some txt =>
      match pairLines qual t with
      | .error e => .error e
      | .ok ls => .ok (pairLine qual txt o :: ls)

/-- `replay`. -/
def replay (f : FuncRef) : Except String (List String) :=
  match f with
  | .noneRef => .ok []
  | .plain => .ok []
  | .bound qual h =>
    match h with
    | .otherH => .ok []
    | .absentH => .ok []
    | .redisH store =>
      match (if rexists store qual ≠ 0 then
               match rget store qual with
               | .error e => .error e
               | .ok none => .error "TypeError"
               | .ok (some b) =>
                 match parseIntBytes b with
                 | none => .error "ValueError"
                 | some n => .ok n
             else .ok 0 : Except String Int) with
      | .error e => .error e
      | .ok callCount =>
        match rlrange store (inputsKey qual) with
        | .error e => .error e
        | .ok ins =>
          match rlrange store (outputsKey qual) with
          | .error e => .error e
          | .ok outs =>
            match pairLines qual (ins.zip outs) with
            | .error e => .error e
            | .ok lines => .ok (summaryLine qual callCount :: lines)

/-! ## The expiring web cache (`web.py`)

The module-level `rad_getter_ = redis.Redis()` store holds `count:{url}`
counters (no TTL) and `cached:{url}` pages written with `setex(…, 10, …)`.
The model adds a clock `now` (absolute time; an entry written at time `t`
with TTL 10 is alive while `now < t + 10`) and a log of the URLs passed
to the wrapped fetch collaborator (`get_page`'s body, i.e.
`requests.get(url).text`), which the model takes as a function
`fetcher : Codes → Codes` from URL to page text. -/

structure WebState where
  store : List (Codes × Bytes × Option Nat)
  now : Nat
  fetched : List Codes

/-- `f"count:{url}"`. -/
def countKey (url : Codes) : Codes := [99, 111, 117, 110, 116, 58] ++ url

/-- `f"cached:{url}"`. -/
def cachedKey (url : Codes) : Codes := [99, 97, 99, 104, 101, 100, 58] ++ url

def wlookup : List (Codes × Bytes × Option Nat) → Codes → Option (Bytes × Option Nat)
  | [], _ => none
  | (k', b, e) :: t, k => if k = k' then some (b, e) else wlookup t k

/-- `GET` against the web store: an expired entry is gone. -/
def wget (s : WebState) (k : Codes) : Option Bytes :=
  match wlookup s.store k with
  | none => none
  | some (b, none) => some b
  | some (b, some exp) => if s.now < exp then some b else none

/-- `SETEX key ttl value`: value plus absolute expiry `now + ttl`. -/
def wsetex (s : WebState) (k : Codes) (ttl : Nat) (b : Bytes) : WebState :=
  { s with store := (k, b, some (s.now + ttl)) :: s.store }

/-- `INCR` against the web store (count keys carry no TTL). -/
def wincr (s : WebState) (k : Codes) : Except String WebState :=
  match wget s k with
  | none => .ok { s with store := (k, encodeIntBytes 1, none) :: s.store }
  | some b =>
    match parseIntBytes b with
    | none => .error "value is not an integer or out of range"
    | some n => .ok { s with store := (k, encodeIntBytes (n + 1), none) :: s.store }

/-- The miss path of `get_page`'s wrapper: `html_code = method(url);
rad_getter_.setex(f"cached:{url}", 10, html_code); return html_code`. -/
def fetchAndCache (fetcher : Codes → Codes) (url : Codes) (s : WebState) :
    Except String Codes × WebState :=
  (.ok (fetcher url),
   wsetex { s with fetched := s.fetched ++ [url] } (cachedKey url) 10
     (utf8Encode (fetcher url)))

/-- `get_page` as wrapped by `count_requests`: unconditional INCR, then
`ht = get(f"cached:{url}")`; a truthy `ht` (present, non-expired and
non-empty) is returned decoded; otherwise fetch, cache with TTL 10 and
return the fresh text. -/
def getPage (fetcher : Codes → Codes) (url : Codes) (s : WebState) :
    Except String Codes × WebState :=
  match wincr s (countKey url) with
  | .error e => (.error e, s)
  | .ok s1 =>
    match wget s1 (cachedKey url) with
    | some b =>
      if b ≠ [] then
        match utf8Decode b with
        | none => (.error "UnicodeDecodeError", s1)
        | some txt => (.ok txt, s1)
      else fetchAndCache fetcher url s1
    | none => fetchAndCache fetcher url s1

/-- A web session: `fetch` calls interleaved with the passage of time. -/
inductive WebEvent
  | fetch (url : Codes)
  | tick (dt : Nat)

/-- Fresh store at time 0. -/
def webInit : WebState := { store := [], now := 0, fetched := [] }

def runWeb (fetcher : Codes → Codes) : WebState → List WebEvent → Except String WebState
  | s, [] => .ok s
  | s, .fetch url :: evs =>
    match getPage fetcher url s with
    | (.ok _, s') => runWeb fetcher s' evs
    | (.error e, _) => .error e
  | s, .tick dt :: evs => runWeb fetcher { s with now := s.now + dt } evs

/-- The AccessCounter for `url` as stored (missing key read as 0). -/
def accessCount (s : WebState) (url : Codes) : Except String Int :=
  match wget s (countKey url) with
  | none => .ok 0
  | some b =>
    match parseIntBytes b with
    | none => .error "value is not an integer or out of range"
    | some n => .ok n

/-- Number of `fetch url` events in a session. -/
def countFetches (url : Codes) : List WebEvent → Nat
  | [] => 0
  | .fetch u :: evs => (if u = url then 1 else 0) + countFetches url evs
  | .tick _ :: evs => countFetches url evs

/-! ## Store-model lemmas -/

theorem rlookup_cons_eq (k : Codes) (v : RVal) (t : RStore) :
    rlookup ((k, v) :: t) k = some v := by
  simp [rlookup]

theorem rlookup_cons_ne {k k' : Codes} (v : RVal) (t : RStore) (h : k ≠ k') :
    rlookup ((k', v) :: t) k = rlookup t k := by
  simp [rlookup, h]

theorem inputsKey_ne_qual (q : Codes) : inputsKey q ≠ q := by
  intro h
  have := congrArg List.length h
  simp [inputsKey] at this

theorem outputsKey_ne_qual (q : Codes) : outputsKey q ≠ q := by
  intro h
  have := congrArg List.length h
  simp [outputsKey] at this

theorem outputsKey_ne_inputsKey (q : Codes) : outputsKey q ≠ inputsKey q := by
  intro h
  have := List.append_cancel_left h
  simp at this

theorem encodeIntBytes_injective {a b : Int}
    (h : encodeIntBytes a = encodeIntBytes b) : a = b := by
  have ha := parseInt_encodeInt a
  rw [h, parseInt_encodeInt b] at ha
  injection ha with ha'
  exact ha'.symm

theorem uuidCodes_injective {a b : Nat} (h : uuidCodes a = uuidCodes b) :
    a = b := by
  unfold uuidCodes at h
  have h2 := encodeIntBytes_injective (List.append_cancel_left h)
  exact Int.ofNat.inj h2

theorem uuidCodes_ne_storeQual (n : Nat) : uuidCodes n ≠ storeQual := by
  simp [uuidCodes, storeQual]

theorem uuidCodes_ne_inputsKey (n : Nat) : uuidCodes n ≠ inputsKey storeQual := by
  simp [uuidCodes, storeQual, inputsKey]

theorem uuidCodes_ne_outputsKey (n : Nat) : uuidCodes n ≠ outputsKey storeQual := by
  simp [uuidCodes, storeQual, outputsKey]

/-- State of the telemetry keys after `n` successful `store` calls on a
`Cache` constructed against a flushed store: counter bytes, parallel
input/output history lists, and the key supply. -/
def C1Inv (n : Nat) (ins outs : List Bytes) (st : CacheState) : Prop :=
  st.supply = n ∧ ins.length = n ∧ outs.length = n ∧
  rlookup st.store storeQual
    = (if n = 0 then none else some (.str (encodeIntBytes (n : Int)))) ∧
  rlookup st.store (inputsKey storeQual)
    = (if n = 0 then none else some (.lst ins)) ∧
  rlookup st.store (outputsKey storeQual)
    = (if n = 0 then none else some (.lst outs))

theorem C1Inv_init (prior : RStore) : C1Inv 0 [] [] (Cache.init prior) := by
  refine ⟨rfl, rfl, rfl, ?_, ?_, ?_⟩ <;> simp [Cache.init, rflushdb, rlookup]

/-- One successful `store` call from an invariant state: the returned
value is the fresh identifier string; the invariant advances with the
argument display appended to the inputs and the returned identifier's
bytes appended to the outputs; the stored value sits under the fresh key
and every earlier generated key is untouched. -/
theorem store_step (st : CacheState) (v : Value) (n : Nat)
    (ins outs : List Bytes) (h : C1Inv n ins outs st) :
    ∃ st', Cache.store st v = (.ok (.str (uuidCodes n)), st')
      ∧ C1Inv (n + 1) (ins ++ [utf8Encode (strArgs v)])
          (outs ++ [utf8Encode (uuidCodes n)]) st'
      ∧ rlookup st'.store (uuidCodes n) = some (.str (encodeValue v))
      ∧ ∀ m, m < n → rlookup st'.store (uuidCodes m) = rlookup st.store (uuidCodes m) := by
  obtain ⟨hsup, hinsLen, houtsLen, hc, hi, ho⟩ := h
  have ne1 : storeQual ≠ inputsKey storeQual := Ne.symm (inputsKey_ne_qual _)
  have ne2 : outputsKey storeQual ≠ uuidCodes n := Ne.symm (uuidCodes_ne_outputsKey n)
  have ne3 : outputsKey storeQual ≠ storeQual := outputsKey_ne_qual _
  have ne4 : outputsKey storeQual ≠ inputsKey storeQual := outputsKey_ne_inputsKey _
  have ne5 : storeQual ≠ uuidCodes n := Ne.symm (uuidCodes_ne_storeQual n)
  have ne6 : inputsKey storeQual ≠ uuidCodes n := Ne.symm (uuidCodes_ne_inputsKey n)
  have ne7 : inputsKey storeQual ≠ storeQual := inputsKey_ne_qual _
  rcases Nat.eq_zero_or_pos n with hn | hn
  · subst hn
    have hins : ins = [] := List.length_eq_zero.mp hinsLen
    have houts : outs = [] := List.length_eq_zero.mp houtsLen
    subst hins
    subst houts
    rw [if_pos rfl] at hc hi ho
    refine ⟨⟨(outputsKey storeQual, .lst [utf8Encode (uuidCodes 0)])
        :: (uuidCodes 0, .str (encodeValue v))
        :: (storeQual, .str (encodeIntBytes 1))
        :: (inputsKey storeQual, .lst [utf8Encode (strArgs v)])
        :: st.store, st.supply + 1⟩, ?_, ?_, ?_, ?_⟩
    · simp [Cache.store, instrumentedCall, storeBody, rpush, rincr, rset,
        rlookup, encodeValue, hi, hc, ho, hsup, ne1, ne2, ne3, ne4, ne5, ne6, ne7]
    · refine ⟨by simp [hsup], by simp, by simp, ?_, ?_, ?_⟩ <;>
        simp [rlookup, ne1, ne2, ne3, ne4, ne5, ne6, ne7, ne2.symm, ne3.symm,
          ne4.symm, ne5.symm, ne6.symm, ne7.symm, hsup]
    · simp [rlookup, uuidCodes_ne_outputsKey 0]
    · intro m hm
      omega
  · have hn0 : n ≠ 0 := by omega
    rw [if_neg hn0] at hc hi ho
    refine ⟨⟨(outputsKey storeQual, .lst (outs ++ [utf8Encode (uuidCodes n)]))
        :: (uuidCodes n, .str (encodeValue v))
        :: (storeQual, .str (encodeIntBytes ((n : Int) + 1)))
        :: (inputsKey storeQual, .lst (ins ++ [utf8Encode (strArgs v)]))
        :: st.store, st.supply + 1⟩, ?_, ?_, ?_, ?_⟩
    · simp [Cache.store, instrumentedCall, storeBody, rpush, rincr, rset,
        rlookup, encodeValue, hi, hc, ho, hsup, ne1, ne2, ne3, ne4, ne5, ne6, ne7,
        parseInt_encodeInt]
    · refine ⟨by simp [hsup], by simp [hinsLen], by simp [houtsLen], ?_, ?_, ?_⟩ <;>
        simp [rlookup, ne1, ne2, ne3, ne4, ne5, ne6, ne7, ne2.symm, ne3.symm,
          ne4.symm, ne5.symm, ne6.symm, ne7.symm, hsup]
    · simp [rlookup, uuidCodes_ne_outputsKey n]
    · intro m hm
      have hmn : uuidCodes m ≠ uuidCodes n := fun he =>
        absurd (uuidCodes_injective he) (by omega)
      simp [rlookup, hmn, uuidCodes_ne_outputsKey m, uuidCodes_ne_storeQual m,
        uuidCodes_ne_inputsKey m]

theorem runStores_inv (vs : List Value) : ∀ (st : CacheState) (n : Nat)
    (ins outs : List Bytes), C1Inv n ins outs st →
    ∃ st' ins' outs', runStores st vs = .ok st'
      ∧ C1Inv (n + vs.length) ins' outs' st' := by
  induction vs with
  | nil =>
      intro st n ins outs h
      exact ⟨st, ins, outs, rfl, by simpa using h⟩
  | cons v vs ih =>
      intro st n ins outs h
      obtain ⟨st1, heq, hinv, -, -⟩ := store_step st v n ins outs h
      obtain ⟨st', ins', outs', hrun, hinv'⟩ := ih st1 (n + 1) _ _ hinv
      refine ⟨st', ins', outs', ?_, ?_⟩
      · rw [runStores, heq]
        exact hrun
      · have harith : n + (v :: vs).length = n + 1 + vs.length := by
          simp
          omega
        rw [harith]
        exact hinv'

theorem runStores_preserves_uuid (vs : List Value) : ∀ (st : CacheState)
    (n : Nat) (ins outs : List Bytes) (m : Nat), C1Inv n ins outs st → m < n →
    ∀ st'', runStores st vs = .ok st'' →
      rlookup st''.store (uuidCodes m) = rlookup st.store (uuidCodes m) := by
  induction vs with
  | nil =>
      intro st n ins outs m h hm st'' hrun
      injection hrun with h'
      rw [← h']
  | cons v vs ih =>
      intro st n ins outs m h hm st'' hrun
      obtain ⟨st1, heq, hinv, -, hpres⟩ := store_step st v n ins outs h
      rw [runStores, heq] at hrun
      rw [ih st1 (n + 1) _ _ m hinv (by omega) st'' hrun, hpres m hm]

theorem C1Inv_observers {n : Nat} {ins outs : List Bytes} {st : CacheState}
    (h : C1Inv n ins outs st) :
    counterValue st.store storeQual = .ok (n : Int)
    ∧ rlrange st.store (inputsKey storeQual) = .ok ins
    ∧ rlrange st.store (outputsKey storeQual) = .ok outs := by
  obtain ⟨hsup, hl1, hl2, hc, hi, ho⟩ := h
  by_cases hn : n = 0
  · subst hn
    have hins : ins = [] := List.length_eq_zero.mp hl1
    have houts : outs = [] := List.length_eq_zero.mp hl2
    subst hins
    subst houts
    rw [if_pos rfl] at hc hi ho
    simp [counterValue, rget, rlrange, hc, hi, ho]
  · rw [if_neg hn] at hc hi ho
    simp [counterValue, rget, rlrange, hc, hi, ho, parseInt_encodeInt]

/-- C1: after `N` successful `store` invocations on a freshly constructed
`Cache` (flushed store), the CallCounter of `"Cache.store"` reads `N` and
the inputs and outputs history lists both have length `N`. -/
theorem claim_C1 (prior : RStore) (vs : List Value) :
    ∃ st', runStores (Cache.init prior) vs = .ok st'
      ∧ counterValue st'.store storeQual = .ok (vs.length : Int)
      ∧ ∃ ins outs,
          rlrange st'.store (inputsKey storeQual) = .ok ins
          ∧ rlrange st'.store (outputsKey storeQual) = .ok outs
          ∧ ins.length = vs.length ∧ outs.length = vs.length := by
  obtain ⟨st', ins', outs', hrun, hinv⟩ :=
    runStores_inv vs (Cache.init prior) 0 [] [] (C1Inv_init prior)
  rw [Nat.zero_add] at hinv
  obtain ⟨hcv, hiv, hov⟩ := C1Inv_observers hinv
  exact ⟨st', hrun, hcv, ins', outs', hiv, hov, hinv.2.1, hinv.2.2.1⟩

theorem decodesBackTo_encodeValue (v : Value) (hval : validValue v = true) :
    decodesBackTo v (encodeValue v) = true := by
  cases v with
  | str s =>
      simp only [validValue] at hval
      simp [decodesBackTo, encodeValue, utf8Decode_utf8Encode s hval]
  | bytes b => simp [decodesBackTo, encodeValue]
  | int n => simp [decodesBackTo, encodeValue, parseInt_encodeInt]
  | float r =>
      simp only [validValue] at hval
      simp [decodesBackTo, encodeValue, utf8Decode_utf8Encode r hval]

/-- C2: `store(v)` returns the fresh key; `get` on that key immediately
afterwards — and after any further sequence of `store` calls — returns
exactly the encoded bytes of `v`, and those bytes decoded per `v`'s
original type equal `v`. -/
theorem claim_C2 (st : CacheState) (v : Value) (n : Nat)
    (ins outs : List Bytes) (hinv : C1Inv n ins outs st)
    (hval : validValue v = true) :
    ∃ st', Cache.store st v = (.ok (.str (uuidCodes n)), st')
      ∧ rget st'.store (uuidCodes n) = .ok (some (encodeValue v))
      ∧ decodesBackTo v (encodeValue v) = true
      ∧ ∀ vs st'', runStores st' vs = .ok st'' →
          rget st''.store (uuidCodes n) = .ok (some (encodeValue v)) := by
  obtain ⟨st', heq, hinv', hval', hpres⟩ := store_step st v n ins outs hinv
  refine ⟨st', heq, by simp [rget, hval'], decodesBackTo_encodeValue v hval, ?_⟩
  intro vs st'' hrun
  rw [rget, runStores_preserves_uuid vs st' (n + 1) _ _ n hinv' (by omega) st'' hrun,
    hval']

theorem claim_C2_witness :
    ∃ st', Cache.store (Cache.init []) (.int 42) = (.ok (.str (uuidCodes 0)), st')
      ∧ rget st'.store (uuidCodes 0) = .ok (some (encodeValue (.int 42)))
      ∧ decodesBackTo (.int 42) (encodeValue (.int 42)) = true
      ∧ ∀ vs st'', runStores st' vs = .ok st'' →
          rget st''.store (uuidCodes 0) = .ok (some (encodeValue (.int 42))) :=
  claim_C2 (Cache.init []) (.int 42) 0 [] [] (C1Inv_init []) rfl

/-- C9: construction always flushes: whatever the prior contents of the
backing store, the store is empty right after `Cache.__init__`, so every
key reads back as absent. -/
theorem claim_C9 (prior : RStore) :
    (Cache.init prior).store = [] ∧
    ∀ k, rget (Cache.init prior).store k = .ok none := by
  refine ⟨rfl, fun k => ?_⟩
  simp [Cache.init, rflushdb, rget, rlookup]

theorem utf8Encode_ascii : ∀ b : Codes, (∀ c ∈ b, c < 128) → utf8Encode b = b := by
  intro b
  induction b with
  | nil => intro _; rfl
  | cons c t ih =>
      intro h
      have hc : c < 128 := h c (by simp)
      rw [utf8Encode, show utf8EncodeChar c = [c] from by simp [utf8EncodeChar, hc],
        ih (fun x hx => h x (by simp [hx]))]
      rfl

theorem utf8Decode_ascii (b : Bytes) (h : ∀ c ∈ b, c < 128) :
    utf8Decode b = some b := by
  have hv : validStr b = true := by
    simp only [validStr, List.all_eq_true]
    intro c hc
    have := h c hc
    simp [validCode]
    omega
  have := utf8Decode_utf8Encode b hv
  rwa [utf8Encode_ascii b h] at this

theorem utf8Decode_cons_none {b : Nat} {rest : Bytes}
    (h : utf8DecodeOne (b :: rest) = none) : utf8Decode (b :: rest) = none := by
  rw [utf8Decode.eq_def]
  simp only
  split
  · rfl
  · rename_i c r heq
    rw [heq] at h
    exact absurd h (by simp)

/-- C3 (counterexample): on a flushed store every key is absent, yet
`get` with the `get_str` transform raises (`None.decode` →
AttributeError) instead of returning the null sentinel. -/
theorem claim_C3_counterexample :
    rget (Cache.init []).store [107] = .ok none
    ∧ Cache.get (Cache.init []) [107] (some decodeTransform)
        = .error "AttributeError" := by
  constructor <;> rfl

/-- C3 (amended): a `get` on a missing key returns the null sentinel and
cannot raise only when no transform is supplied; a supplied transform is
applied even to the absent (`None`) result, so the call yields whatever
the transform does on `None`. -/
theorem claim_C3 (st : CacheState) (k : Codes)
    (habs : rget st.store k = .ok none) :
    Cache.get st k none = .ok none
    ∧ ∀ f, Cache.get st k (some f) = f none := by
  refine ⟨?_, fun f => ?_⟩ <;> simp [Cache.get, habs]

theorem claim_C3_witness :
    Cache.get (Cache.init []) [107] none = .ok none
    ∧ ∀ f, Cache.get (Cache.init []) [107] (some f) = f none :=
  claim_C3 (Cache.init []) [107] rfl

/-- C8: `get_str` returns the UTF-8 decoding of the stored bytes and
surfaces a decode error on invalid UTF-8; `get_int` returns the parsed
base-10 integer and surfaces an error on non-numeric bytes. -/
theorem claim_C8 :
    (∀ (st : CacheState) (k : Codes) (b : Bytes) (s : Codes),
        rget st.store k = .ok (some b) → utf8Decode b = some s →
        Cache.get_str st k = .ok (some (.str s)))
    ∧ (∀ (st : CacheState) (k : Codes) (b : Bytes),
        rget st.store k = .ok (some b) → utf8Decode b = none →
        Cache.get_str st k = .error "UnicodeDecodeError")
    ∧ (∀ (st : CacheState) (k : Codes) (b : Bytes) (n : Int),
        rget st.store k = .ok (some b) → parseIntBytes b = some n →
        Cache.get_int st k = .ok (some (.int n)))
    ∧ (∀ (st : CacheState) (k : Codes) (b : Bytes),
        rget st.store k = .ok (some b) → parseIntBytes b = none →
        Cache.get_int st k = .error "ValueError") := by
  refine ⟨fun st k b s hget hx => ?_, fun st k b hget hx => ?_,
    fun st k b n hget hx => ?_, fun st k b hget hx => ?_⟩ <;>
    simp [Cache.get_str, Cache.get_int, Cache.get, decodeTransform, intTransform,
      hget, hx]

theorem claim_C8_witness :
    Cache.get_str ⟨[([104], .str [104, 101, 108, 108, 111])], 0⟩ [104]
        = .ok (some (.str [104, 101, 108, 108, 111]))
    ∧ Cache.get_str ⟨[([105], .str [255])], 0⟩ [105]
        = .error "UnicodeDecodeError"
    ∧ Cache.get_int ⟨[([106], .str [52, 50])], 0⟩ [106] = .ok (some (.int 42))
    ∧ Cache.get_int ⟨[([107], .str [97, 98, 99])], 0⟩ [107]
        = .error "ValueError"
    ∧ Cache.get_int ⟨[([108], .str [32, 52, 50, 10])], 0⟩ [108]
        = .ok (some (.int 42))
    ∧ Cache.get_int ⟨[([109], .str [52, 95, 50])], 0⟩ [109]
        = .ok (some (.int 42)) :=
  ⟨claim_C8.1 _ [104] [104, 101, 108, 108, 111] [104, 101, 108, 108, 111] rfl
      (utf8Decode_ascii _ (by decide)),
   claim_C8.2.1 _ [105] [255] rfl (utf8Decode_cons_none (by decide)),
   claim_C8.2.2.1 _ [106] [52, 50] 42 rfl (by decide),
   claim_C8.2.2.2 _ [107] [97, 98, 99] rfl (by decide),
   claim_C8.2.2.1 _ [108] [32, 52, 50, 10] 42 rfl (by decide),
   claim_C8.2.2.1 _ [109] [52, 95, 50] 42 rfl (by decide)⟩

/-- The state the wrapped operation runs in: input record appended, then
counter incremented (the two pre-call telemetry writes of
`call_history` and `count_calls`). -/
def midState (qual argRepr : Codes) (cnt : Int) (ins : List Bytes)
    (st : CacheState) : CacheState :=
  ⟨(qual, .str (encodeIntBytes (cnt + 1)))
    :: (inputsKey qual, .lst (ins ++ [utf8Encode argRepr]))
    :: st.store, st.supply⟩

/-- C6: when the underlying operation raises inside the doubly-wrapped
call, the error propagates with exactly the state the operation left
(the wrapper appends no output record), while the counter increment and
the input append were already committed before the operation ran, and
the outputs list is untouched by the pre-call writes — the length
mismatch is not corrected. -/
theorem claim_C6 (qual argRepr : Codes) (cnt : Int) (ins : List Bytes)
    (st : CacheState) (body : CacheState → Except String Value × CacheState)
    (hc : (rlookup st.store qual = none ∧ cnt = 0)
          ∨ rlookup st.store qual = some (.str (encodeIntBytes cnt)))
    (hi : (rlookup st.store (inputsKey qual) = none ∧ ins = [])
          ∨ rlookup st.store (inputsKey qual) = some (.lst ins)) :
    (∀ e stB, body (midState qual argRepr cnt ins st) = (.error e, stB) →
        instrumentedCall qual argRepr body st = (.error e, stB))
    ∧ rlookup (midState qual argRepr cnt ins st).store qual
        = some (.str (encodeIntBytes (cnt + 1)))
    ∧ rlookup (midState qual argRepr cnt ins st).store (inputsKey qual)
        = some (.lst (ins ++ [utf8Encode argRepr]))
    ∧ rlookup (midState qual argRepr cnt ins st).store (outputsKey qual)
        = rlookup st.store (outputsKey qual) := by
  have ne1 : inputsKey qual ≠ qual := inputsKey_ne_qual qual
  have ne3 : outputsKey qual ≠ qual := outputsKey_ne_qual qual
  have ne4 : outputsKey qual ≠ inputsKey qual := outputsKey_ne_inputsKey qual
  refine ⟨?_, ?_, ?_, ?_⟩
  · intro e stB hbody
    rcases hc with ⟨hc', hcnt⟩ | hc' <;> rcases hi with ⟨hi', hins⟩ | hi'
    · subst hcnt
      subst hins
      simp only [midState, List.nil_append, zero_add] at hbody
      simp [instrumentedCall, rpush, rincr, rset, rlookup, hc', hi', ne1,
        Ne.symm ne1, hbody]
    · subst hcnt
      simp only [midState, zero_add] at hbody
      simp [instrumentedCall, rpush, rincr, rset, rlookup, hc', hi', ne1,
        Ne.symm ne1, hbody]
    · subst hins
      simp only [midState, List.nil_append] at hbody
      simp [instrumentedCall, rpush, rincr, rset, rlookup, hc', hi', ne1,
        Ne.symm ne1, parseInt_encodeInt, hbody]
    · simp only [midState] at hbody
      simp [instrumentedCall, rpush, rincr, rset, rlookup, hc', hi', ne1,
        Ne.symm ne1, parseInt_encodeInt, hbody]
  · simp [midState, rlookup_cons_eq]
  · rw [midState]
    simp only
    rw [rlookup_cons_ne _ _ ne1, rlookup_cons_eq]
  · rw [midState]
    simp only
    rw [rlookup_cons_ne _ _ ne3, rlookup_cons_ne _ _ ne4]

theorem claim_C6_witness :
    (∀ e stB,
        ((Except.error "ConnectionError" : Except String Value),
            midState [113] [97] 0 [] (Cache.init [])) = (.error e, stB) →
        instrumentedCall [113] [97]
            (fun s => ((Except.error "ConnectionError" : Except String Value), s))
            (Cache.init [])
          = (.error e, stB))
    ∧ rlookup (midState [113] [97] 0 [] (Cache.init [])).store [113]
        = some (.str (encodeIntBytes (0 + 1)))
    ∧ rlookup (midState [113] [97] 0 [] (Cache.init [])).store (inputsKey [113])
        = some (.lst ([] ++ [utf8Encode [97]]))
    ∧ rlookup (midState [113] [97] 0 [] (Cache.init [])).store (outputsKey [113])
        = rlookup (Cache.init []).store (outputsKey [113]) :=
  claim_C6 [113] [97] 0 [] (Cache.init [])
    (fun s => ((Except.error "ConnectionError" : Except String Value), s))
    (Or.inl ⟨rfl, rfl⟩) (Or.inl ⟨rfl, rfl⟩)

theorem pairLines_length (q : Codes) :
    ∀ (ps : List (Bytes × Bytes)) (ls : List String),
      pairLines q ps = .ok ls → ls.length = ps.length := by
  intro ps
  induction ps with
  | nil =>
      intro ls h
      simp only [pairLines] at h
      injection h with h'
      rw [← h']
      rfl
  | cons p t ih =>
      intro ls h
      obtain ⟨i, o⟩ := p
      simp only [pairLines] at h
      split at h
      · exact absurd h (by simp)
      · split at h
        · exact absurd h (by simp)
        · rename_i ls' heq2
          injection h with h'
          rw [← h']
          simp [ih ls' heq2]

/-- C7: `replay` is silent (no lines, no error) on a null, unbound or
invalid-handle reference; on a valid bound reference it prints the
summary line (missing counter read as 0) followed by one line per
positionally zipped (input, output) pair — inputs UTF-8-decoded, outputs
in raw stored form — stopping at the shorter history. -/
theorem claim_C7 :
    (replay .noneRef = .ok []
     ∧ replay .plain = .ok []
     ∧ (∀ q, replay (.bound q .otherH) = .ok [])
     ∧ (∀ q, replay (.bound q .absentH) = .ok []))
    ∧ ∀ (store : RStore) (q : Codes) (cnt : Int) (ins outs : List Bytes)
        (lines : List String),
        counterValue store q = .ok cnt →
        rlrange store (inputsKey q) = .ok ins →
        rlrange store (outputsKey q) = .ok outs →
        pairLines q (ins.zip outs) = .ok lines →
        replay (.bound q (.redisH store)) = .ok (summaryLine q cnt :: lines)
        ∧ (summaryLine q cnt :: lines).length
            = 1 + min ins.length outs.length := by
  constructor
  · exact ⟨rfl, rfl, fun _ => rfl, fun _ => rfl⟩
  · intro store q cnt ins outs lines hcv hins houts hpl
    have hlen : lines.length = min ins.length outs.length := by
      rw [pairLines_length q _ _ hpl, List.length_zip]
    refine ⟨?_, by simp [hlen]; omega⟩
    cases hlook : rlookup store q with
    | none =>
        have hcnt : cnt = 0 := by
          simp only [counterValue, rget, hlook] at hcv
          injection hcv with h'
          rw [← h']
        subst hcnt
        simp [replay, rexists, rget, hlook, hins, houts, hpl]
    | some v =>
        cases v with
        | str b =>
            simp only [counterValue, rget, hlook] at hcv
            cases hp : parseIntBytes b with
            | none =>
                rw [hp] at hcv
                exact absurd hcv (by simp)
            | some n =>
                rw [hp] at hcv
                injection hcv with h'
                rw [← h']
                simp [replay, rexists, rget, hlook, hp, hins, houts, hpl]
        | lst l =>
            simp only [counterValue, rget, hlook] at hcv
            exact absurd hcv (by simp)

theorem claim_C7_witness :
    replay (.bound [122] (.redisH [(inputsKey [122], .lst [[40, 53, 44, 41]]),
        (outputsKey [122], .lst [[104]])]))
        = .ok (summaryLine [122] 0 :: [pairLine [122] [40, 53, 44, 41] [104]])
    ∧ (summaryLine [122] 0 :: [pairLine [122] [40, 53, 44, 41] [104]]).length
        = 1 + min [[40, 53, 44, 41]].length [[104]].length :=
  claim_C7.2 _ [122] 0 [[40, 53, 44, 41]] [[104]] _ rfl rfl rfl
    (by simp [pairLines, utf8Decode_ascii [40, 53, 44, 41] (by decide)])

/-! ## Web-cache lemmas -/

theorem countKey_ne_cachedKey (u u' : Codes) : countKey u ≠ cachedKey u' := by
  simp [countKey, cachedKey]

theorem countKey_injective {u u' : Codes} (h : countKey u = countKey u') :
    u = u' := List.append_cancel_left h

theorem cachedKey_injective {u u' : Codes} (h : cachedKey u = cachedKey u') :
    u = u' := List.append_cancel_left h

theorem wget_cons_ne {k k' : Codes} {b : Bytes} {e : Option Nat}
    {t : List (Codes × Bytes × Option Nat)} {now : Nat} {f f' : List Codes}
    (h : k ≠ k') :
    wget ⟨(k', b, e) :: t, now, f⟩ k = wget ⟨t, now, f'⟩ k := by
  simp [wget, wlookup, h]

theorem wget_cons_eq_none {k : Codes} {b : Bytes}
    {t : List (Codes × Bytes × Option Nat)} {now : Nat} {f : List Codes} :
    wget ⟨(k, b, none) :: t, now, f⟩ k = some b := by
  simp [wget, wlookup]

theorem wget_cons_eq_ttl {k : Codes} {b : Bytes} {exp : Nat}
    {t : List (Codes × Bytes × Option Nat)} {now : Nat} {f : List Codes} :
    wget ⟨(k, b, some exp) :: t, now, f⟩ k
      = if now < exp then some b else none := by
  simp [wget, wlookup]

theorem wget_fetched_irrel {st : List (Codes × Bytes × Option Nat)}
    {now : Nat} {f f' : List Codes} (k : Codes) :
    wget ⟨st, now, f⟩ k = wget ⟨st, now, f'⟩ k := by
  simp [wget]

theorem wget_tick {s : WebState} {dt : Nat} {k : Codes} {b : Bytes}
    (h : wget ⟨s.store, s.now + dt, s.fetched⟩ k = some b) :
    wget s k = some b := by
  unfold wget at h ⊢
  cases hl : wlookup s.store k with
  | none => rw [hl] at h; exact absurd h (by simp)
  | some p =>
      obtain ⟨b', e⟩ := p
      rw [hl] at h
      cases e with
      | none => exact h
      | some exp =>
          simp only at h
          split at h
          · rename_i hlt
            simp only
            rw [if_pos (by omega)]
            exact h
          · exact absurd h (by simp)

/-- `INCR count:url` from a state whose counter reads `n`: the new state
has the counter at `n + 1`, every other counter and every cached entry
unchanged, and the clock and fetch log untouched. -/
theorem wincr_spec (s : WebState) (url : Codes) (n : Int)
    (h : accessCount s url = .ok n) :
    ∃ s1, wincr s (countKey url) = .ok s1
      ∧ s1.store = (countKey url, encodeIntBytes (n + 1), none) :: s.store
      ∧ s1.now = s.now ∧ s1.fetched = s.fetched
      ∧ accessCount s1 url = .ok (n + 1)
      ∧ (∀ u, u ≠ url → accessCount s1 u = accessCount s u)
      ∧ (∀ u, wget s1 (cachedKey u) = wget s (cachedKey u)) := by
  have key : ∃ s1, wincr s (countKey url) = .ok s1
      ∧ s1 = ⟨(countKey url, encodeIntBytes (n + 1), none) :: s.store,
              s.now, s.fetched⟩ := by
    cases hw : wget s (countKey url) with
    | none =>
        have hn : n = 0 := by
          simp only [accessCount, hw] at h
          injection h with h'
          omega
        subst hn
        refine ⟨_, ?_, rfl⟩
        simp only [wincr, hw, zero_add]
    | some b =>
        simp only [accessCount, hw] at h
        cases hp : parseIntBytes b with
        | none => rw [hp] at h; exact absurd h (by simp)
        | some m =>
            rw [hp] at h
            injection h with h'
            subst h'
            refine ⟨_, ?_, rfl⟩
            simp only [wincr, hw, hp]
  obtain ⟨s1, hinc, hs1⟩ := key
  subst hs1
  refine ⟨_, hinc, rfl, rfl, rfl, ?_, ?_, ?_⟩
  · simp only [accessCount, wget_cons_eq_none, parseInt_encodeInt]
  · intro u hu
    have hne : countKey u ≠ countKey url := fun he => hu (countKey_injective he)
    have heq : wget ⟨(countKey url, encodeIntBytes (n + 1), none) :: s.store,
        s.now, s.fetched⟩ (countKey u) = wget s (countKey u) :=
      wget_cons_ne hne
    simp only [accessCount, heq]
  · intro u
    exact wget_cons_ne (countKey_ne_cachedKey url u).symm

theorem wlookup_cons_eq (k : Codes) (b : Bytes) (e : Option Nat)
    (t : List (Codes × Bytes × Option Nat)) :
    wlookup ((k, b, e) :: t) k = some (b, e) := by
  simp [wlookup]

theorem wlookup_cons_ne {k k' : Codes} (b : Bytes) (e : Option Nat)
    (t : List (Codes × Bytes × Option Nat)) (h : k ≠ k') :
    wlookup ((k', b, e) :: t) k = wlookup t k := by
  simp [wlookup, h]

theorem wget_prepend_ne (s : WebState) {k k' : Codes} (b : Bytes)
    (e : Option Nat) (f' : List Codes) (h : k ≠ k') :
    wget ⟨(k', b, e) :: s.store, s.now, f'⟩ k = wget s k := by
  simp [wget, wlookup, h]

/-- `get_page` on a URL whose cache entry is absent, expired, or empty
(falsy): the collaborator is invoked exactly once, the fresh text is
cached with expiry `now + 10`, the fresh text is returned, and the
counter advances. -/
theorem getPage_refetch (fetcher : Codes → Codes) (url : Codes) (s : WebState)
    (n : Int) (hcnt : accessCount s url = .ok n)
    (hmiss : wget s (cachedKey url) = none ∨ wget s (cachedKey url) = some []) :
    ∃ s', getPage fetcher url s = (.ok (fetcher url), s')
      ∧ s'.fetched = s.fetched ++ [url]
      ∧ wlookup s'.store (cachedKey url)
          = some (utf8Encode (fetcher url), some (s.now + 10))
      ∧ s'.now = s.now
      ∧ accessCount s' url = .ok (n + 1)
      ∧ (∀ u, u ≠ url → accessCount s' u = accessCount s u)
      ∧ (∀ u, u ≠ url → wget s' (cachedKey u) = wget s (cachedKey u))
      ∧ (∀ u b e, wlookup s'.store (countKey u) = some (b, e) →
          wlookup s.store (countKey u) = some (b, e) ∨ e = none) := by
  obtain ⟨s1, hinc, hstore, hnow, hfetch, hacc, haccu, hcache⟩ :=
    wincr_spec s url n hcnt
  have hget1 : wget s1 (cachedKey url) = wget s (cachedKey url) := hcache url
  refine ⟨⟨(cachedKey url, utf8Encode (fetcher url), some (s1.now + 10))
      :: s1.store, s1.now, s1.fetched ++ [url]⟩, ?_, ?_, ?_, ?_, ?_, ?_, ?_, ?_⟩
  · rcases hmiss with hm | hm <;>
      simp [getPage, hinc, hget1, hm, fetchAndCache, wsetex]
  · simp only [hfetch]
  · simp [wlookup, hnow]
  · exact hnow
  · have h1 : wget ⟨(cachedKey url, utf8Encode (fetcher url),
        some (s1.now + 10)) :: s1.store, s1.now, s1.fetched ++ [url]⟩
        (countKey url) = wget s1 (countKey url) :=
      wget_prepend_ne s1 _ _ _ (countKey_ne_cachedKey url url)
    simp only [accessCount, h1]
    simp only [accessCount] at hacc
    exact hacc
  · intro u hu
    have h1 : wget ⟨(cachedKey url, utf8Encode (fetcher url),
        some (s1.now + 10)) :: s1.store, s1.now, s1.fetched ++ [url]⟩
        (countKey u) = wget s1 (countKey u) :=
      wget_prepend_ne s1 _ _ _ (countKey_ne_cachedKey u url)
    simp only [accessCount, h1]
    simp only [accessCount] at haccu
    have := haccu u hu
    exact this
  · intro u hu
    have h1 : wget ⟨(cachedKey url, utf8Encode (fetcher url),
        some (s1.now + 10)) :: s1.store, s1.now, s1.fetched ++ [url]⟩
        (cachedKey u) = wget s1 (cachedKey u) :=
      wget_prepend_ne s1 _ _ _
        (fun he => hu (cachedKey_injective he))
    rw [h1, hcache u]
  · intro u b e hl
    simp only at hl
    rw [wlookup_cons_ne _ _ _ (countKey_ne_cachedKey u url), hstore] at hl
    by_cases hu : countKey u = countKey url
    · rw [hu, wlookup_cons_eq] at hl
      injection hl with hl'
      injection hl' with h1 h2
      exact Or.inr h2.symm
    · rw [wlookup_cons_ne _ _ _ hu] at hl
      exact Or.inl hl

/-- `get_page` on a URL with a present, non-expired, non-empty cached
value: the decoded cached text is returned, the collaborator is not
invoked, and only the counter changes. -/
theorem getPage_hit (fetcher : Codes → Codes) (url : Codes) (s : WebState)
    (n : Int) (b : Bytes) (t : Codes)
    (hcnt : accessCount s url = .ok n)
    (hhit : wget s (cachedKey url) = some b) (hne : b ≠ [])
    (hdec : utf8Decode b = some t) :
    ∃ s', getPage fetcher url s = (.ok t, s')
      ∧ s'.fetched = s.fetched
      ∧ s'.now = s.now
      ∧ accessCount s' url = .ok (n + 1)
      ∧ (∀ u, u ≠ url → accessCount s' u = accessCount s u)
      ∧ (∀ u, wget s' (cachedKey u) = wget s (cachedKey u))
      ∧ (∀ u b' e, wlookup s'.store (countKey u) = some (b', e) →
          wlookup s.store (countKey u) = some (b', e) ∨ e = none) := by
  obtain ⟨s1, hinc, hstore, hnow, hfetch, hacc, haccu, hcache⟩ :=
    wincr_spec s url n hcnt
  have hget1 : wget s1 (cachedKey url) = some b := (hcache url).trans hhit
  refine ⟨s1, ?_, hfetch, hnow, hacc, haccu, hcache, ?_⟩
  · simp [getPage, hinc, hget1, hne, hdec]
  · intro u b' e hl
    rw [hstore] at hl
    by_cases hu : countKey u = countKey url
    · rw [hu, wlookup_cons_eq] at hl
      injection hl with hl'
      injection hl' with h1 h2
      exact Or.inr h2.symm
    · rw [wlookup_cons_ne _ _ _ hu] at hl
      exact Or.inl hl

/-- C4: `fetch(url)` with no cached, non-expired value for `url` invokes
the external collaborator exactly once (the fetch log grows by exactly
`[url]`), writes the returned content under `cached:url` with expiry
`now + 10` (TTL 10 from the moment of write), and returns the fresh
content. -/
theorem claim_C4 (fetcher : Codes → Codes) (url : Codes) (s : WebState)
    (n : Int) (hcnt : accessCount s url = .ok n)
    (hmiss : wget s (cachedKey url) = none) :
    ∃ s', getPage fetcher url s = (.ok (fetcher url), s')
      ∧ s'.fetched = s.fetched ++ [url]
      ∧ wlookup s'.store (cachedKey url)
          = some (utf8Encode (fetcher url), some (s.now + 10))
      ∧ s'.now = s.now := by
  obtain ⟨s', h1, h2, h3, h4, -⟩ :=
    getPage_refetch fetcher url s n hcnt (Or.inl hmiss)
  exact ⟨s', h1, h2, h3, h4⟩

theorem claim_C4_witness :
    ∃ s', getPage (fun _ => [104, 105]) [117] webInit
        = (.ok ((fun _ => [104, 105]) [117]), s')
      ∧ s'.fetched = webInit.fetched ++ [[117]]
      ∧ wlookup s'.store (cachedKey [117])
          = some (utf8Encode ((fun _ => [104, 105]) [117]),
                  some (webInit.now + 10))
      ∧ s'.now = webInit.now :=
  claim_C4 (fun _ => [104, 105]) [117] webInit 0 rfl rfl

/-- C10: an empty cached value is falsy, so even with a present,
non-expired cache entry for `url`, `fetch(url)` does not serve it: the
external collaborator is re-invoked and its fresh result is returned and
re-cached. -/
theorem claim_C10 (fetcher : Codes → Codes) (url : Codes) (s : WebState)
    (n : Int) (hcnt : accessCount s url = .ok n)
    (hempty : wget s (cachedKey url) = some []) :
    ∃ s', getPage fetcher url s = (.ok (fetcher url), s')
      ∧ s'.fetched = s.fetched ++ [url]
      ∧ wlookup s'.store (cachedKey url)
          = some (utf8Encode (fetcher url), some (s.now + 10)) := by
  obtain ⟨s', h1, h2, h3, -⟩ :=
    getPage_refetch fetcher url s n hcnt (Or.inr hempty)
  exact ⟨s', h1, h2, h3⟩

theorem claim_C10_witness :
    ∃ s', getPage (fun _ => [104]) [117]
        ⟨[(cachedKey [117], [], some 5)], 0, []⟩
        = (.ok ((fun _ => [104]) [117]), s')
      ∧ s'.fetched
          = (⟨[(cachedKey [117], [], some 5)], 0, []⟩ : WebState).fetched
              ++ [[117]]
      ∧ wlookup s'.store (cachedKey [117])
          = some (utf8Encode ((fun _ => [104]) [117]),
              some ((⟨[(cachedKey [117], [], some 5)], 0, []⟩ : WebState).now
                + 10)) :=
  claim_C10 (fun _ => [104]) [117] ⟨[(cachedKey [117], [], some 5)], 0, []⟩ 0
    rfl (by simp [wget, wlookup])

/-- Run invariant for the web cache: every access counter reads its
tracked value, every live cached value is valid UTF-8 (it was produced by
`setex` of encoded text), and counter keys carry no TTL. -/
def WebInv (cnt : Codes → Int) (s : WebState) : Prop :=
  (∀ u, accessCount s u = .ok (cnt u))
  ∧ (∀ u b, wget s (cachedKey u) = some b → ∃ t, utf8Decode b = some t)
  ∧ (∀ u b e, wlookup s.store (countKey u) = some (b, e) → e = none)

theorem WebInv_init : WebInv (fun _ => 0) webInit := by
  refine ⟨fun u => ?_, fun u b h => ?_, fun u b e h => ?_⟩
  · simp [accessCount, wget, wlookup, webInit]
  · simp [wget, wlookup, webInit] at h
  · simp [wlookup, webInit] at h

theorem WebInv_congr {f g : Codes → Int} {s : WebState} (h : WebInv f s)
    (hfg : ∀ u, f u = g u) : WebInv g s :=
  ⟨fun u => (hfg u) ▸ h.1 u, h.2.1, h.2.2⟩

theorem WebInv_tick {cnt : Codes → Int} {s : WebState} (dt : Nat)
    (h : WebInv cnt s) :
    WebInv cnt ⟨s.store, s.now + dt, s.fetched⟩ := by
  obtain ⟨h1, h2, h3⟩ := h
  refine ⟨fun u => ?_, fun u b hb => ?_, h3⟩
  · have hu := h1 u
    cases hl : wlookup s.store (countKey u) with
    | none => simp only [accessCount, wget, hl] at hu ⊢; exact hu
    | some p =>
        obtain ⟨b, e⟩ := p
        have he : e = none := h3 u b e hl
        subst he
        simp only [accessCount, wget, hl] at hu ⊢
        exact hu
  · exact h2 u b (wget_tick hb)

theorem getPage_ok (fetcher : Codes → Codes) (url : Codes) (s : WebState)
    (cnt : Codes → Int) (hf : validStr (fetcher url) = true)
    (h : WebInv cnt s) :
    ∃ r s', getPage fetcher url s = (.ok r, s')
      ∧ WebInv (fun u => cnt u + if u = url then 1 else 0) s' := by
  obtain ⟨h1, h2, h3⟩ := h
  have hrefetch : wget s (cachedKey url) = none ∨ wget s (cachedKey url) = some []
      → ∃ r s', getPage fetcher url s = (.ok r, s')
        ∧ WebInv (fun u => cnt u + if u = url then 1 else 0) s' := by
    intro hmiss
    obtain ⟨s', hpage, hfetchlog, hlook, hnow, hacc, haccu, hcacheu, hcountk⟩ :=
      getPage_refetch fetcher url s (cnt url) (h1 url) hmiss
    refine ⟨_, s', hpage, fun u => ?_, fun u b hb => ?_, fun u b e hl => ?_⟩
    · by_cases hu : u = url
      · subst hu
        simpa using hacc
      · simpa [hu] using (haccu u hu).trans (h1 u)
    · by_cases hu : u = url
      · subst hu
        have : wget s' (cachedKey u) = some (utf8Encode (fetcher u)) := by
          simp only [wget, hlook, hnow]
          rw [if_pos (by omega)]
        rw [this] at hb
        injection hb with hb'
        exact ⟨fetcher u, hb' ▸ utf8Decode_utf8Encode (fetcher u) hf⟩
      · rw [hcacheu u hu] at hb
        exact h2 u b hb
    · rcases hcountk u b e hl with hold | hnone
      · exact h3 u b e hold
      · exact hnone
  cases hc : wget s (cachedKey url) with
  | none => exact hrefetch (Or.inl hc)
  | some b =>
      by_cases hb : b = []
      · subst hb
        exact hrefetch (Or.inr hc)
      · obtain ⟨t, ht⟩ := h2 url b hc
        obtain ⟨s', hpage, hfetchlog, hnow, hacc, haccu, hcacheu, hcountk⟩ :=
          getPage_hit fetcher url s (cnt url) b t (h1 url) hc hb ht
        refine ⟨t, s', hpage, fun u => ?_, fun u b' hb' => ?_, fun u b' e hl => ?_⟩
        · by_cases hu : u = url
          · subst hu
            simpa using hacc
          · simpa [hu] using (haccu u hu).trans (h1 u)
        · rw [hcacheu u] at hb'
          exact h2 u b' hb'
        · rcases hcountk u b' e hl with hold | hnone
          · exact h3 u b' e hold
          · exact hnone

theorem runWeb_inv (fetcher : Codes → Codes)
    (hf : ∀ u, validStr (fetcher u) = true) :
    ∀ (evs : List WebEvent) (s : WebState) (cnt : Codes → Int), WebInv cnt s →
    ∃ s', runWeb fetcher s evs = .ok s'
      ∧ WebInv (fun u => cnt u + (countFetches u evs : Int)) s' := by
  intro evs
  induction evs with
  | nil =>
      intro s cnt h
      exact ⟨s, rfl, WebInv_congr h (fun u => by simp [countFetches])⟩
  | cons ev evs ih =>
      intro s cnt h
      cases ev with
      | fetch url =>
          obtain ⟨r, s1, hpage, hinv1⟩ := getPage_ok fetcher url s cnt (hf url) h
          obtain ⟨s', hrun, hinv'⟩ := ih s1 _ hinv1
          refine ⟨s', ?_, ?_⟩
          · rw [runWeb, hpage]
            exact hrun
          · refine WebInv_congr hinv' (fun u => ?_)
            simp only [countFetches]
            by_cases hu : u = url
            · subst hu
              rw [if_pos rfl, if_pos rfl]
              push_cast
              ring
            · have hu' : ¬(url = u) := fun he => hu he.symm
              rw [if_neg hu, if_neg hu']
              push_cast
              ring
      | tick dt =>
          obtain ⟨s', hrun, hinv'⟩ :=
            ih ⟨s.store, s.now + dt, s.fetched⟩ cnt (WebInv_tick dt h)
          refine ⟨s', ?_, WebInv_congr hinv' (fun u => by simp [countFetches])⟩
          rw [runWeb]
          exact hrun

/-- C5 (amended): every `fetch(url)` increments the access counter for
`url` by one, hit or miss, so from a fresh store the counter equals the
number of `fetch(url)` calls in the session; and a cached, non-expired,
NON-EMPTY value is served without invoking the collaborator.  (The
unamended claim fails for an empty cached value, see the
counterexample.) -/
theorem claim_C5 :
    (∀ (fetcher : Codes → Codes), (∀ u, validStr (fetcher u) = true) →
      ∀ (evs : List WebEvent) (url : Codes),
        ∃ s', runWeb fetcher webInit evs = .ok s'
          ∧ accessCount s' url = .ok (countFetches url evs))
    ∧ (∀ (fetcher : Codes → Codes) (url : Codes) (s : WebState) (n : Int)
        (b : Bytes) (t : Codes),
        accessCount s url = .ok n →
        wget s (cachedKey url) = some b → b ≠ [] → utf8Decode b = some t →
        ∃ s', getPage fetcher url s = (.ok t, s')
          ∧ s'.fetched = s.fetched
          ∧ accessCount s' url = .ok (n + 1)) := by
  constructor
  · intro fetcher hf evs url
    obtain ⟨s', hrun, hinv⟩ :=
      runWeb_inv fetcher hf evs webInit (fun _ => 0) WebInv_init
    refine ⟨s', hrun, ?_⟩
    simpa using hinv.1 url
  · intro fetcher url s n b t hcnt hhit hne hdec
    obtain ⟨s', h1, h2, -, h4, -⟩ :=
      getPage_hit fetcher url s n b t hcnt hhit hne hdec
    exact ⟨s', h1, h2, h4⟩

/-- C5 (counterexample to the unamended claim): a present, non-expired
but EMPTY cached value is not served — the collaborator is invoked and
its fresh content returned. -/
theorem claim_C5_counterexample :
    wget ⟨[(cachedKey [117], [], some 5)], 0, []⟩ (cachedKey [117]) = some []
    ∧ (getPage (fun _ => [104]) [117]
        ⟨[(cachedKey [117], [], some 5)], 0, []⟩).2.fetched = [[117]]
    ∧ (getPage (fun _ => [104]) [117]
        ⟨[(cachedKey [117], [], some 5)], 0, []⟩).1 = .ok [104] := by
  refine ⟨rfl, rfl, rfl⟩

theorem claim_C5_witness :
    (∃ s', runWeb (fun _ => [104]) webInit [.fetch [117], .fetch [117]]
        = .ok s'
      ∧ accessCount s' [117]
          = .ok (countFetches [117] [.fetch [117], .fetch [117]]))
    ∧ (∃ s', getPage (fun _ => [105]) [117]
          ⟨[(cachedKey [117], [104], some 5)], 0, []⟩ = (.ok [104], s')
        ∧ s'.fetched
            = (⟨[(cachedKey [117], [104], some 5)], 0, []⟩ : WebState).fetched
        ∧ accessCount s' [117] = .ok (0 + 1)) :=
  ⟨claim_C5.1 (fun _ => [104]) (fun _ => rfl)
      [.fetch [117], .fetch [117]] [117],
   claim_C5.2 (fun _ => [105]) [117] ⟨[(cachedKey [117], [104], some 5)], 0, []⟩
      0 [104] [104] rfl rfl (by decide) (utf8Decode_ascii [104] (by decide))⟩
